import Mathlib

/-!
# Verification of the Fibonacci-spiral point generator (src/Fib.py)

Shallow embedding of the geometry core of `Fib.py` over the real numbers.
Python floats are modelled as reals; a Python `ZeroDivisionError` (the only
fault the generator can raise) is modelled by `Option.none`.  The host-CAD
glue code is out of scope, matching the specification.
-/

open Classical

noncomputable section

/-- Mirrors the Python class `Point3D` (Fib.py lines 20-25): an (x, y, z)
triple of reals. -/
structure Point3D where
  x : ℝ
  y : ℝ
  z : ℝ

/-- Golden ratio `phi = (1 + math.sqrt(5)) / 2` (Fib.py line 87). -/
def phi : ℝ := (1 + Real.sqrt 5) / 2

/-- Running minimum: fold of `min` over a list starting from a first value.
The Python code initialises `min_x` to `+inf` and folds `min` over all
coordinates as they are produced; for a nonempty coordinate list `x :: xs`
that accumulation equals `runMin x xs`. -/
def runMin (x : ℝ) (xs : List ℝ) : ℝ := xs.foldl min x

/-- Running maximum, the `max`/`-inf` counterpart of `runMin`. -/
def runMax (x : ℝ) (xs : List ℝ) : ℝ := xs.foldl max x

/-- The local `angle = i * angle_increment` with
`angle_increment = (2 * math.pi * turns) / num_points` (Fib.py lines 90, 100). -/
def spiralAngle (num_points : ℤ) (turns : ℝ) (i : ℕ) : ℝ :=
  (i : ℝ) * ((2 * Real.pi * turns) / (num_points : ℝ))

/-- The local `radius = math.pow(phi, 2 * angle / math.pi)` (Fib.py line 101),
a real power. -/
def spiralRadius (num_points : ℤ) (turns : ℝ) (i : ℕ) : ℝ :=
  phi ^ (2 * spiralAngle num_points turns i / Real.pi)

/-- The i-th unscaled spiral point
`(radius * cos(angle), radius * sin(angle))` (Fib.py lines 102-103). -/
def unscaledPoint (num_points : ℤ) (turns : ℝ) (i : ℕ) : ℝ × ℝ :=
  (spiralRadius num_points turns i * Real.cos (spiralAngle num_points turns i),
   spiralRadius num_points turns i * Real.sin (spiralAngle num_points turns i))

/-- The list of unscaled points for `i in range(num_points)` (Fib.py line 99);
Python's `range(num_points)` is empty for `num_points ≤ 0`. -/
def unscaledPoints (num_points : ℤ) (turns : ℝ) : List (ℝ × ℝ) :=
  (List.range num_points.toNat).map (unscaledPoint num_points turns)

/-- `max(width, height_dim)` of the bounding box of a nonempty unscaled point
list `u :: us` (Fib.py lines 106-115). -/
def maxDimension (u : ℝ × ℝ) (us : List (ℝ × ℝ)) : ℝ :=
  max (runMax u.1 (us.map Prod.fst) - runMin u.1 (us.map Prod.fst))
      (runMax u.2 (us.map Prod.snd) - runMin u.2 (us.map Prod.snd))

/-- The second pass (Fib.py lines 124-135): multiply x and y by
`scaling_factor` and ramp z, starting from `current_z` and adding
`z_increment` after each emitted point. -/
def scaleAndRamp (scaling_factor z_increment : ℝ) :
    List (ℝ × ℝ) → ℝ → List Point3D
  | [], _ => []
  | u :: rest, current_z =>
      ⟨u.1 * scaling_factor, u.2 * scaling_factor, current_z⟩ ::
        scaleAndRamp scaling_factor z_increment rest (current_z + z_increment)

/-- `generate_fibonacci_points` (Fib.py lines 82-137).  `none` models the
Python `ZeroDivisionError`: at `num_points = 0` the `angle_increment`
division (line 90) raises, and when `max_dimension = 0` the scaling division
(line 118) raises.  For `num_points < 0` the point loop never runs, the
`±inf` initialisers survive, `scaling_factor = scale / -inf` is an ordinary
float, and the empty list is returned, so that case is `some []`. -/
def generate_fibonacci_points (num_points : ℤ) (scale turns height : ℝ) :
    Option (List Point3D) :=
  if num_points = 0 then none
  else
    match unscaledPoints num_points turns with
    | [] => some []
    | u :: us =>
      if maxDimension u us = 0 then none
      else
        some (scaleAndRamp (scale / maxDimension u us)
          (if 0 < num_points then height / (num_points : ℝ) else 0) (u :: us) 0)

/-- `get_bounding_box` (Fib.py lines 27-37): `(min_x, max_x, min_y, max_y)`,
with `(0, 0, 0, 0)` for the empty list. -/
def get_bounding_box : List Point3D → ℝ × ℝ × ℝ × ℝ
  | [] => (0, 0, 0, 0)
  | p :: ps =>
      (runMin p.x (ps.map Point3D.x), runMax p.x (ps.map Point3D.x),
       runMin p.y (ps.map Point3D.y), runMax p.y (ps.map Point3D.y))

/-- `max(max_x - min_x, max_y - min_y)` from a bounding-box tuple
(Fib.py lines 53-55). -/
def boxMaxDim (b : ℝ × ℝ × ℝ × ℝ) : ℝ := max (b.2.1 - b.1) (b.2.2.2 - b.2.2.1)

/-- The fixed test table of `test_spiral_dimensions` (Fib.py lines 41-47). -/
def test_cases : List (ℤ × ℝ × ℝ × ℝ) :=
  [(100, 100, 1, 0), (200, 50, 2, 0), (50, 200, 1/2, 0),
   (100, 100, 1, 50), (50, 100, 1, 25)]

/-- The per-case checks of the loop body of `test_spiral_dimensions`
(Fib.py lines 51-77): bounding-box check, then (only when `height > 0`) the
z-range check, both against `tolerance = scale * 0.01` (line 58).
`some false` models returning False after the diagnostic print (which has no
observable effect here); `min`/`max` of the z generator on an empty point
list would raise ValueError, modelled `none`. -/
def checkPoints (scale height : ℝ) (points : List Point3D) : Option Bool :=
  if |boxMaxDim (get_bounding_box points) - scale| > scale * 0.01 then some false
  else if 0 < height then
    match points with
    | [] => none
    | p :: ps =>
      if |(runMax p.z (ps.map Point3D.z) - runMin p.z (ps.map Point3D.z)) - height|
          > scale * 0.01 then some false
      else some true
  else some true

/-- One loop iteration; a `none` from the generator (an uncaught exception)
propagates out of the test. -/
def runCase (c : ℤ × ℝ × ℝ × ℝ) : Option Bool :=
  Option.bind (generate_fibonacci_points c.1 c.2.1 c.2.2.1 c.2.2.2)
    (checkPoints c.2.1 c.2.2.2)

/-- The loop of `test_spiral_dimensions`: returns false at the first failing
case, true when every case passed. -/
def testLoop : List (ℤ × ℝ × ℝ × ℝ) → Option Bool
  | [] => some true
  | c :: cs =>
    match runCase c with
    | none => none
    | some false => some false
    | some true => testLoop cs

/-- `test_spiral_dimensions` (Fib.py lines 39-80). -/
def test_spiral_dimensions : Option Bool := testLoop test_cases

end

/-! ## Fold lemmas for the running minimum / maximum -/

theorem runMin_nil (x : ℝ) : runMin x [] = x := rfl

theorem runMin_cons (x y : ℝ) (ys : List ℝ) :
    runMin x (y :: ys) = runMin (min x y) ys := rfl

theorem runMax_nil (x : ℝ) : runMax x [] = x := rfl

theorem runMax_cons (x y : ℝ) (ys : List ℝ) :
    runMax x (y :: ys) = runMax (max x y) ys := rfl

theorem runMin_le_init (xs : List ℝ) : ∀ x : ℝ, runMin x xs ≤ x := by
  induction xs with
  | nil => intro x; simp [runMin]
  | cons y ys ih =>
    intro x
    calc runMin x (y :: ys) = runMin (min x y) ys := rfl
    _ ≤ min x y := ih _
    _ ≤ x := min_le_left _ _

theorem init_le_runMax (xs : List ℝ) : ∀ x : ℝ, x ≤ runMax x xs := by
  induction xs with
  | nil => intro x; simp [runMax]
  | cons y ys ih =>
    intro x
    calc x ≤ max x y := le_max_left _ _
    _ ≤ runMax (max x y) ys := ih _
    _ = runMax x (y :: ys) := rfl

theorem runMin_le_of_mem {y : ℝ} {xs : List ℝ} (hy : y ∈ xs) :
    ∀ x : ℝ, runMin x xs ≤ y := by
  induction xs with
  | nil => cases hy
  | cons a as ih =>
    intro x
    rcases List.mem_cons.mp hy with h | h
    · subst h
      calc runMin x (y :: as) = runMin (min x y) as := rfl
      _ ≤ min x y := runMin_le_init _ _
      _ ≤ y := min_le_right _ _
    · exact (runMin_cons x a as) ▸ ih h (min x a)

theorem le_runMax_of_mem {y : ℝ} {xs : List ℝ} (hy : y ∈ xs) :
    ∀ x : ℝ, y ≤ runMax x xs := by
  induction xs with
  | nil => cases hy
  | cons a as ih =>
    intro x
    rcases List.mem_cons.mp hy with h | h
    · subst h
      calc y ≤ max x y := le_max_right _ _
      _ ≤ runMax (max x y) as := init_le_runMax _ _
      _ = runMax x (y :: as) := rfl
    · exact (runMax_cons x a as) ▸ ih h (max x a)

theorem runMin_eq_init {xs : List ℝ} : ∀ {x : ℝ}, (∀ y ∈ xs, x ≤ y) →
    runMin x xs = x := by
  induction xs with
  | nil => intro x _; rfl
  | cons a as ih =>
    intro x hx
    have hxa : x ≤ a := hx a (List.mem_cons_self a as)
    have : min x a = x := min_eq_left hxa
    rw [runMin_cons, this]
    exact ih fun y hy => hx y (List.mem_cons_of_mem a hy)

theorem runMax_le {xs : List ℝ} {M : ℝ} : ∀ {x : ℝ}, x ≤ M →
    (∀ y ∈ xs, y ≤ M) → runMax x xs ≤ M := by
  induction xs with
  | nil => intro x hx _; exact hx
  | cons a as ih =>
    intro x hx hall
    rw [runMax_cons]
    exact ih (max_le hx (hall a (List.mem_cons_self a as)))
      fun y hy => hall y (List.mem_cons_of_mem a hy)

theorem min_mul_nonneg (a b c : ℝ) (hc : 0 ≤ c) :
    min a b * c = min (a * c) (b * c) := by
  rcases le_total a b with h | h
  · rw [min_eq_left h, min_eq_left (mul_le_mul_of_nonneg_right h hc)]
  · rw [min_eq_right h, min_eq_right (mul_le_mul_of_nonneg_right h hc)]

theorem max_mul_nonneg (a b c : ℝ) (hc : 0 ≤ c) :
    max a b * c = max (a * c) (b * c) := by
  rcases le_total a b with h | h
  · rw [max_eq_right h, max_eq_right (mul_le_mul_of_nonneg_right h hc)]
  · rw [max_eq_left h, max_eq_left (mul_le_mul_of_nonneg_right h hc)]

theorem runMin_map_mul (c : ℝ) (hc : 0 ≤ c) (xs : List ℝ) :
    ∀ x : ℝ, runMin (x * c) (xs.map (fun a => a * c)) = runMin x xs * c := by
  induction xs with
  | nil => intro x; rfl
  | cons a as ih =>
    intro x
    rw [List.map_cons, runMin_cons, runMin_cons, ← min_mul_nonneg x a c hc, ih]

theorem runMax_map_mul (c : ℝ) (hc : 0 ≤ c) (xs : List ℝ) :
    ∀ x : ℝ, runMax (x * c) (xs.map (fun a => a * c)) = runMax x xs * c := by
  induction xs with
  | nil => intro x; rfl
  | cons a as ih =>
    intro x
    rw [List.map_cons, runMax_cons, runMax_cons, ← max_mul_nonneg x a c hc, ih]

/-! ## Facts about the golden ratio -/

theorem one_lt_sqrt_five : (1 : ℝ) < Real.sqrt 5 := by
  have h1 : (1 : ℝ) = Real.sqrt 1 := Real.sqrt_one.symm
  rw [h1]
  exact Real.sqrt_lt_sqrt (by norm_num) (by norm_num)

theorem one_lt_phi : (1 : ℝ) < phi := by
  have := one_lt_sqrt_five
  rw [phi]
  linarith

theorem phi_pos : (0 : ℝ) < phi := lt_trans one_pos one_lt_phi

theorem phi_ne_zero : phi ≠ 0 := ne_of_gt phi_pos

/-! ## Structure of the unscaled point list -/

theorem spiralAngle_zero (n : ℤ) (t : ℝ) : spiralAngle n t 0 = 0 := by
  simp [spiralAngle]

theorem unscaledPoint_eval (n : ℤ) (t : ℝ) (i : ℕ) {a : ℝ}
    (ha : spiralAngle n t i = a) :
    unscaledPoint n t i =
      (phi ^ (2 * a / Real.pi) * Real.cos a,
       phi ^ (2 * a / Real.pi) * Real.sin a) := by
  rw [unscaledPoint, spiralRadius, ha]

theorem unscaledPoint_zero (n : ℤ) (t : ℝ) : unscaledPoint n t 0 = (1, 0) := by
  rw [unscaledPoint_eval n t 0 (spiralAngle_zero n t)]
  have h0 : 2 * (0 : ℝ) / Real.pi = 0 := by simp
  rw [h0, Real.rpow_zero, Real.cos_zero, Real.sin_zero, mul_one, mul_zero]

theorem unscaledPoints_length (n : ℤ) (t : ℝ) :
    (unscaledPoints n t).length = n.toNat := by
  simp [unscaledPoints]

theorem unscaledPoint_mem (n : ℤ) (t : ℝ) {i : ℕ} (hi : i < n.toNat) :
    unscaledPoint n t i ∈ unscaledPoints n t := by
  rw [unscaledPoints]
  exact List.mem_map_of_mem _ (List.mem_range.mpr hi)

theorem unscaledPoints_cons (n : ℤ) (t : ℝ) (hn : 1 ≤ n) :
    unscaledPoints n t =
      (1, 0) :: (List.range (n.toNat - 1)).map (fun i => unscaledPoint n t (i + 1)) := by
  obtain ⟨k, hk⟩ : ∃ k, n.toNat = k + 1 := ⟨n.toNat - 1, by omega⟩
  have hk1 : k = n.toNat - 1 := by omega
  rw [unscaledPoints, hk, List.range_succ_eq_map, List.map_cons, List.map_map,
    unscaledPoint_zero, hk1]
  rfl

/-! ## Structure of the scaled, z-ramped output list -/

theorem scaleAndRamp_length (sf dz : ℝ) (l : List (ℝ × ℝ)) :
    ∀ z0 : ℝ, (scaleAndRamp sf dz l z0).length = l.length := by
  induction l with
  | nil => intro z0; rfl
  | cons u rest ih => intro z0; simp [scaleAndRamp, ih]

theorem scaleAndRamp_map_x (sf dz : ℝ) (l : List (ℝ × ℝ)) :
    ∀ z0 : ℝ, (scaleAndRamp sf dz l z0).map Point3D.x = l.map (fun v => v.1 * sf) := by
  induction l with
  | nil => intro z0; rfl
  | cons u rest ih => intro z0; simp [scaleAndRamp, ih]

theorem scaleAndRamp_map_y (sf dz : ℝ) (l : List (ℝ × ℝ)) :
    ∀ z0 : ℝ, (scaleAndRamp sf dz l z0).map Point3D.y = l.map (fun v => v.2 * sf) := by
  induction l with
  | nil => intro z0; rfl
  | cons u rest ih => intro z0; simp [scaleAndRamp, ih]

theorem scaleAndRamp_map_z (sf dz : ℝ) (l : List (ℝ × ℝ)) :
    ∀ z0 : ℝ, (scaleAndRamp sf dz l z0).map Point3D.z =
      (List.range l.length).map (fun i : ℕ => z0 + (i : ℝ) * dz) := by
  induction l with
  | nil => intro z0; rfl
  | cons u rest ih =>
    intro z0
    rw [List.length_cons, List.range_succ_eq_map, List.map_cons, List.map_map]
    simp only [scaleAndRamp, List.map_cons]
    rw [ih (z0 + dz)]
    congr 1
    · push_cast
      ring
    · congr 1
      funext i
      simp only [Function.comp]
      push_cast
      ring

theorem scaleAndRamp_getD_z (sf dz : ℝ) (l : List (ℝ × ℝ)) :
    ∀ (z0 : ℝ) (i : ℕ), i < l.length →
      ((scaleAndRamp sf dz l z0).getD i ⟨0, 0, 0⟩).z = z0 + (i : ℝ) * dz := by
  induction l with
  | nil => intro z0 i hi; simp at hi
  | cons u rest ih =>
    intro z0 i hi
    cases i with
    | zero => simp [scaleAndRamp]
    | succ j =>
      have hj : j < rest.length := by simpa using hi
      have := ih (z0 + dz) j hj
      simp only [scaleAndRamp, List.getD_cons_succ, this]
      push_cast
      ring

/-! ## Characterisation of the generator's control flow -/

theorem generate_neg (n : ℤ) (s t h : ℝ) (hn : n < 0) :
    generate_fibonacci_points n s t h = some [] := by
  have h0 : ¬(n = 0) := by omega
  have he : unscaledPoints n t = [] := by
    have hz : n.toNat = 0 := by omega
    rw [unscaledPoints, hz]
    rfl
  unfold generate_fibonacci_points
  rw [if_neg h0, he]

theorem generate_zero (s t h : ℝ) :
    generate_fibonacci_points 0 s t h = none := rfl

theorem generate_eq (n : ℤ) (s t h : ℝ) (u : ℝ × ℝ) (us : List (ℝ × ℝ))
    (hn : 1 ≤ n) (hu : unscaledPoints n t = u :: us) (hmd : maxDimension u us ≠ 0) :
    generate_fibonacci_points n s t h =
      some (scaleAndRamp (s / maxDimension u us) (h / (n : ℝ)) (u :: us) 0) := by
  have h0 : ¬(n = 0) := by omega
  have hpos : 0 < n := by omega
  simp [generate_fibonacci_points, hu, h0, hmd, hpos]

theorem generate_some_inv (n : ℤ) (s t h : ℝ) (u : ℝ × ℝ) (us : List (ℝ × ℝ))
    (pts : List Point3D) (hn : 1 ≤ n) (hu : unscaledPoints n t = u :: us)
    (hgen : generate_fibonacci_points n s t h = some pts) :
    maxDimension u us ≠ 0 ∧
      pts = scaleAndRamp (s / maxDimension u us) (h / (n : ℝ)) (u :: us) 0 := by
  have h0 : ¬(n = 0) := by omega
  have hpos : 0 < n := by omega
  by_cases hmd : maxDimension u us = 0
  · exfalso
    rw [generate_fibonacci_points] at hgen
    rw [if_neg h0, hu] at hgen
    simp [hmd] at hgen
  · refine ⟨hmd, ?_⟩
    rw [generate_eq n s t h u us hn hu hmd] at hgen
    exact (Option.some.injEq _ _ ▸ hgen).symm

/-! ## Positivity of the unscaled extent -/

theorem maxDimension_nonneg (u : ℝ × ℝ) (us : List (ℝ × ℝ)) :
    0 ≤ maxDimension u us := by
  have h1 : runMin u.1 (us.map Prod.fst) ≤ runMax u.1 (us.map Prod.fst) :=
    le_trans (runMin_le_init _ _) (init_le_runMax _ _)
  exact le_trans (sub_nonneg.mpr h1) (le_max_left _ _)

theorem runMin_coord_le (f : ℝ × ℝ → ℝ) {u v : ℝ × ℝ} {us : List (ℝ × ℝ)}
    (hv : v ∈ u :: us) : runMin (f u) (us.map f) ≤ f v := by
  rcases List.mem_cons.mp hv with h | h
  · subst h; exact runMin_le_init _ _
  · exact runMin_le_of_mem (List.mem_map_of_mem f h) _

theorem le_runMax_coord (f : ℝ × ℝ → ℝ) {u v : ℝ × ℝ} {us : List (ℝ × ℝ)}
    (hv : v ∈ u :: us) : f v ≤ runMax (f u) (us.map f) := by
  rcases List.mem_cons.mp hv with h | h
  · subst h; exact init_le_runMax _ _
  · exact le_runMax_of_mem (List.mem_map_of_mem f h) _

theorem maxDimension_pos_of_fst_ne {u : ℝ × ℝ} {us : List (ℝ × ℝ)} {v w : ℝ × ℝ}
    (hv : v ∈ u :: us) (hw : w ∈ u :: us) (hne : v.1 ≠ w.1) :
    0 < maxDimension u us := by
  rcases lt_or_gt_of_ne hne with hlt | hlt
  · have h1 := runMin_coord_le Prod.fst hv
    have h2 := le_runMax_coord Prod.fst hw
    exact lt_max_iff.mpr (Or.inl (by linarith))
  · have h1 := runMin_coord_le Prod.fst hw
    have h2 := le_runMax_coord Prod.fst hv
    exact lt_max_iff.mpr (Or.inl (by linarith))

theorem maxDimension_pos_of_snd_ne {u : ℝ × ℝ} {us : List (ℝ × ℝ)} {v w : ℝ × ℝ}
    (hv : v ∈ u :: us) (hw : w ∈ u :: us) (hne : v.2 ≠ w.2) :
    0 < maxDimension u us := by
  rcases lt_or_gt_of_ne hne with hlt | hlt
  · have h1 := runMin_coord_le Prod.snd hv
    have h2 := le_runMax_coord Prod.snd hw
    exact lt_max_iff.mpr (Or.inr (by linarith))
  · have h1 := runMin_coord_le Prod.snd hw
    have h2 := le_runMax_coord Prod.snd hv
    exact lt_max_iff.mpr (Or.inr (by linarith))

/-! ## Minimum and maximum of the z-ramp -/

theorem runMax_append_singleton (x a : ℝ) (l : List ℝ) :
    runMax x (l ++ [a]) = max (runMax x l) a := by
  simp [runMax, List.foldl_append]

theorem runMin_ramp (m : ℕ) (dz : ℝ) (hdz : 0 ≤ dz) :
    runMin 0 ((List.range m).map (fun i : ℕ => ((i : ℝ) + 1) * dz)) = 0 := by
  apply runMin_eq_init
  intro y hy
  simp only [List.mem_map, List.mem_range] at hy
  obtain ⟨i, _, rfl⟩ := hy
  positivity

theorem runMax_ramp (m : ℕ) (dz : ℝ) (hdz : 0 ≤ dz) :
    runMax 0 ((List.range m).map (fun i : ℕ => ((i : ℝ) + 1) * dz)) = (m : ℝ) * dz := by
  induction m with
  | zero => simp [runMax]
  | succ k ih =>
    rw [List.range_succ, List.map_append, List.map_cons, List.map_nil,
      runMax_append_singleton, ih]
    have hk : (k : ℝ) * dz ≤ ((k : ℝ) + 1) * dz :=
      mul_le_mul_of_nonneg_right (by linarith) hdz
    rw [max_eq_right hk]
    push_cast
    ring

theorem scaleAndRamp_cons (sf dz : ℝ) (u : ℝ × ℝ) (us : List (ℝ × ℝ)) (z0 : ℝ) :
    scaleAndRamp sf dz (u :: us) z0 =
      ⟨u.1 * sf, u.2 * sf, z0⟩ :: scaleAndRamp sf dz us (z0 + dz) := rfl

theorem scaleAndRamp_tail_map_z (sf dz : ℝ) (us : List (ℝ × ℝ)) :
    (scaleAndRamp sf dz us ((0 : ℝ) + dz)).map Point3D.z =
      (List.range us.length).map (fun i : ℕ => ((i : ℝ) + 1) * dz) := by
  rw [scaleAndRamp_map_z]
  congr 1
  funext i
  ring

theorem scaleAndRamp_z_min (sf dz : ℝ) (hdz : 0 ≤ dz) (us : List (ℝ × ℝ)) :
    runMin 0 ((scaleAndRamp sf dz us ((0 : ℝ) + dz)).map Point3D.z) = 0 := by
  rw [scaleAndRamp_tail_map_z]
  exact runMin_ramp _ _ hdz

theorem scaleAndRamp_z_max (sf dz : ℝ) (hdz : 0 ≤ dz) (us : List (ℝ × ℝ)) :
    runMax 0 ((scaleAndRamp sf dz us ((0 : ℝ) + dz)).map Point3D.z) =
      (us.length : ℝ) * dz := by
  rw [scaleAndRamp_tail_map_z]
  exact runMax_ramp _ _ hdz

/-! ## The bounding box of the scaled output -/

theorem boxMaxDim_scaleAndRamp (sf dz : ℝ) (hsf : 0 ≤ sf) (u : ℝ × ℝ)
    (us : List (ℝ × ℝ)) (z0 : ℝ) :
    boxMaxDim (get_bounding_box (scaleAndRamp sf dz (u :: us) z0)) =
      maxDimension u us * sf := by
  have hx : (scaleAndRamp sf dz us (z0 + dz)).map Point3D.x =
      (us.map Prod.fst).map (fun a => a * sf) := by
    rw [scaleAndRamp_map_x, List.map_map]
    rfl
  have hy : (scaleAndRamp sf dz us (z0 + dz)).map Point3D.y =
      (us.map Prod.snd).map (fun a => a * sf) := by
    rw [scaleAndRamp_map_y, List.map_map]
    rfl
  rw [scaleAndRamp_cons]
  simp only [get_bounding_box, boxMaxDim, hx, hy]
  rw [runMin_map_mul sf hsf, runMax_map_mul sf hsf, runMin_map_mul sf hsf,
    runMax_map_mul sf hsf, maxDimension, max_mul_nonneg _ _ _ hsf, sub_mul, sub_mul]

/-! ## Values of the unscaled points at special angles -/

theorem unscaledPoint_pi_div_two (n : ℤ) (t : ℝ) (i : ℕ)
    (ha : spiralAngle n t i = Real.pi / 2) : unscaledPoint n t i = (0, phi) := by
  rw [unscaledPoint_eval n t i ha]
  have he : 2 * (Real.pi / 2) / Real.pi = 1 := by
    field_simp
  rw [he, Real.rpow_one, Real.cos_pi_div_two, Real.sin_pi_div_two, mul_zero, mul_one]

theorem unscaledPoint_pi (n : ℤ) (t : ℝ) (i : ℕ)
    (ha : spiralAngle n t i = Real.pi) :
    unscaledPoint n t i = (-(phi ^ (2 : ℝ)), 0) := by
  rw [unscaledPoint_eval n t i ha]
  have he : 2 * Real.pi / Real.pi = 2 := by
    rw [mul_div_assoc, div_self Real.pi_ne_zero, mul_one]
  rw [he, Real.cos_pi, Real.sin_pi, mul_zero, mul_neg_one]

/-! ## The generator succeeds whenever num_points ≥ 2 and turns > 0 -/

theorem spiralRadius_gt_one (n : ℤ) (t : ℝ) (i : ℕ) (hn : 0 < n) (ht : 0 < t)
    (hi : 0 < i) : 1 < spiralRadius n t i := by
  have hpi := Real.pi_pos
  have hnr : (0 : ℝ) < (n : ℝ) := by exact_mod_cast hn
  have hir : (0 : ℝ) < (i : ℝ) := by exact_mod_cast hi
  have hangle : 0 < spiralAngle n t i := by
    rw [spiralAngle]
    exact mul_pos hir (div_pos (mul_pos (mul_pos (by norm_num) hpi) ht) hnr)
  have hexp : 0 < 2 * spiralAngle n t i / Real.pi :=
    div_pos (mul_pos (by norm_num) hangle) hpi
  rw [spiralRadius]
  rw [Real.one_lt_rpow_iff_of_pos phi_pos]
  exact Or.inl ⟨one_lt_phi, hexp⟩

theorem unscaledPoint_ne (n : ℤ) (t : ℝ) (i : ℕ) (hr : 1 < spiralRadius n t i) :
    unscaledPoint n t i ≠ (1, 0) := by
  intro hc
  rw [unscaledPoint, Prod.mk.injEq] at hc
  obtain ⟨h1, h2⟩ := hc
  have hr0 : spiralRadius n t i ≠ 0 := by linarith
  have hsin : Real.sin (spiralAngle n t i) = 0 := by
    rcases mul_eq_zero.mp h2 with hz | hz
    · exact absurd hz hr0
    · exact hz
  have hcos2 : Real.cos (spiralAngle n t i) * Real.cos (spiralAngle n t i) = 1 := by
    have hsq := Real.sin_sq_add_cos_sq (spiralAngle n t i)
    rw [hsin] at hsq
    nlinarith [hsq]
  rcases mul_self_eq_one_iff.mp hcos2 with hc1 | hc1
  · rw [hc1, mul_one] at h1
    linarith
  · rw [hc1, mul_neg_one] at h1
    linarith

theorem generate_succeeds (n : ℤ) (s t h : ℝ) (hn : 2 ≤ n) (ht : 0 < t) :
    ∃ us, unscaledPoints n t = (1, 0) :: us ∧ 0 < maxDimension (1, 0) us ∧
      generate_fibonacci_points n s t h =
        some (scaleAndRamp (s / maxDimension (1, 0) us) (h / (n : ℝ))
          ((1, 0) :: us) 0) := by
  have hcons := unscaledPoints_cons n t (by omega)
  set us := (List.range (n.toNat - 1)).map (fun i => unscaledPoint n t (i + 1)) with hus
  have hmem1 : unscaledPoint n t 1 ∈ ((1, 0) : ℝ × ℝ) :: us := by
    have := unscaledPoint_mem n t (by omega : 1 < n.toNat)
    rwa [hcons] at this
  have hmem0 : ((1, 0) : ℝ × ℝ) ∈ ((1, 0) : ℝ × ℝ) :: us := List.mem_cons_self _ _
  have hr : 1 < spiralRadius n t 1 := spiralRadius_gt_one n t 1 (by omega) ht one_pos
  have hne := unscaledPoint_ne n t 1 hr
  have hne2 : (unscaledPoint n t 1).1 ≠ (1 : ℝ) ∨ (unscaledPoint n t 1).2 ≠ (0 : ℝ) := by
    by_contra hc
    push_neg at hc
    exact hne (Prod.ext_iff.mpr ⟨hc.1, hc.2⟩)
  have hmd : 0 < maxDimension (1, 0) us := by
    rcases hne2 with h1 | h2
    · exact maxDimension_pos_of_fst_ne hmem1 hmem0 h1
    · exact maxDimension_pos_of_snd_ne hmem1 hmem0 h2
  exact ⟨us, hcons, hmd,
    generate_eq n s t h _ us (by omega) hcons (ne_of_gt hmd)⟩

/-! ## Master lemmas about a successful generation -/

theorem generate_length_of_some (n : ℤ) (s t h : ℝ) (pts : List Point3D)
    (hn : 1 ≤ n) (hgen : generate_fibonacci_points n s t h = some pts) :
    pts.length = n.toNat := by
  have hcons := unscaledPoints_cons n t hn
  obtain ⟨hmd, hpts⟩ := generate_some_inv n s t h _ _ pts hn hcons hgen
  rw [hpts, scaleAndRamp_length]
  have hlen := unscaledPoints_length n t
  rw [hcons] at hlen
  exact hlen

theorem generate_boxMaxDim (n : ℤ) (s t h : ℝ) (pts : List Point3D)
    (hn : 1 ≤ n) (hs : 0 < s)
    (hgen : generate_fibonacci_points n s t h = some pts) :
    boxMaxDim (get_bounding_box pts) = s := by
  have hcons := unscaledPoints_cons n t hn
  obtain ⟨hmd, hpts⟩ := generate_some_inv n s t h _ _ pts hn hcons hgen
  have hmdpos : 0 < maxDimension (1, 0)
      ((List.range (n.toNat - 1)).map (fun i => unscaledPoint n t (i + 1))) :=
    lt_of_le_of_ne (maxDimension_nonneg _ _) (Ne.symm hmd)
  have hsf : 0 ≤ s / maxDimension (1, 0)
      ((List.range (n.toNat - 1)).map (fun i => unscaledPoint n t (i + 1))) :=
    le_of_lt (div_pos hs hmdpos)
  rw [hpts, boxMaxDim_scaleAndRamp _ _ hsf, mul_comm, div_mul_cancel₀ _ hmd]

theorem generate_z_stats (n : ℤ) (s t h : ℝ) (pts : List Point3D)
    (hn : 1 ≤ n) (hh : 0 ≤ h)
    (hgen : generate_fibonacci_points n s t h = some pts) :
    ∃ p ps, pts = p :: ps ∧ p.z = 0 ∧
      runMin p.z (ps.map Point3D.z) = 0 ∧
      runMax p.z (ps.map Point3D.z) = ((n.toNat - 1 : ℕ) : ℝ) * (h / (n : ℝ)) := by
  have hcons := unscaledPoints_cons n t hn
  obtain ⟨hmd, hpts⟩ := generate_some_inv n s t h _ _ pts hn hcons hgen
  have hn0 : (0 : ℤ) ≤ n := by omega
  have hdz : 0 ≤ h / (n : ℝ) := by
    apply div_nonneg hh
    exact_mod_cast hn0
  rw [scaleAndRamp_cons] at hpts
  refine ⟨_, _, hpts, rfl, ?_, ?_⟩
  · exact scaleAndRamp_z_min _ _ hdz _
  · rw [show Point3D.z ⟨1 * (s / maxDimension (1, 0)
        ((List.range (n.toNat - 1)).map (fun i => unscaledPoint n t (i + 1)))),
        0 * (s / maxDimension (1, 0)
        ((List.range (n.toNat - 1)).map (fun i => unscaledPoint n t (i + 1)))),
        (0 : ℝ)⟩ = (0 : ℝ) from rfl]
    rw [scaleAndRamp_z_max _ _ hdz _]
    congr 2
    simp

theorem generate_getD_z (n : ℤ) (s t h : ℝ) (pts : List Point3D)
    (hn : 1 ≤ n) (hgen : generate_fibonacci_points n s t h = some pts) :
    ∀ i : ℕ, i < pts.length →
      (pts.getD i ⟨0, 0, 0⟩).z = (i : ℝ) * (h / (n : ℝ)) := by
  have hcons := unscaledPoints_cons n t hn
  obtain ⟨hmd, hpts⟩ := generate_some_inv n s t h _ _ pts hn hcons hgen
  intro i hi
  rw [hpts] at hi ⊢
  rw [scaleAndRamp_length] at hi
  rw [scaleAndRamp_getD_z _ _ _ 0 i hi]
  ring

/-! ## Cast helpers -/

theorem toNat_sub_one_cast (n : ℤ) (hn : 1 ≤ n) :
    ((n.toNat - 1 : ℕ) : ℝ) = (n : ℝ) - 1 := by
  have h1 : (1 : ℕ) ≤ n.toNat := by omega
  rw [Nat.cast_sub h1, Nat.cast_one]
  have h2 : ((n.toNat : ℕ) : ℝ) = (n : ℝ) := by
    exact_mod_cast Int.toNat_of_nonneg (by omega : (0 : ℤ) ≤ n)
  rw [h2]

theorem intCast_pos (n : ℤ) (hn : 1 ≤ n) : (0 : ℝ) < (n : ℝ) := by
  exact_mod_cast (by omega : (0 : ℤ) < n)

theorem ramp_last_eq (n : ℤ) (h : ℝ) (hn : 1 ≤ n) :
    ((n : ℝ) - 1) * (h / (n : ℝ)) = h - h / (n : ℝ) := by
  have hne : (n : ℝ) ≠ 0 := ne_of_gt (intCast_pos n hn)
  field_simp
  ring

/-! ## Concrete evaluation at num_points = 1 and num_points = 2 -/

theorem unscaledPoints_one (t : ℝ) : unscaledPoints 1 t = [(1, 0)] := by
  have h := unscaledPoints_cons 1 t (by norm_num)
  have h1 : (1 : ℤ).toNat - 1 = 0 := rfl
  rw [h, h1, List.range_zero, List.map_nil]

theorem maxDimension_single : maxDimension ((1 : ℝ), (0 : ℝ)) [] = 0 := by
  show max ((1 : ℝ) - 1) ((0 : ℝ) - 0) = 0
  norm_num

theorem generate_one (s t h : ℝ) : generate_fibonacci_points 1 s t h = none := by
  unfold generate_fibonacci_points
  rw [if_neg (by norm_num : ¬(1 : ℤ) = 0), unscaledPoints_one]
  simp [maxDimension_single]

theorem spiralAngle_two_half_one : spiralAngle 2 (1/2) 1 = Real.pi / 2 := by
  rw [spiralAngle]
  push_cast
  ring

theorem unscaledPoints_two : unscaledPoints 2 (1/2) = [(1, 0), (0, phi)] := by
  have h := unscaledPoints_cons 2 (1/2) (by norm_num)
  have h1 : (2 : ℤ).toNat - 1 = 1 := rfl
  rw [h, h1, show List.range 1 = [0] from rfl, List.map_cons, List.map_nil]
  rw [show (0 : ℕ) + 1 = 1 from rfl]
  rw [unscaledPoint_pi_div_two 2 (1/2) 1 spiralAngle_two_half_one]

theorem maxDimension_two : maxDimension ((1 : ℝ), (0 : ℝ)) [((0 : ℝ), phi)] = phi := by
  have hp0 : (0 : ℝ) ≤ phi := le_of_lt phi_pos
  have hp1 : (1 : ℝ) ≤ phi := le_of_lt one_lt_phi
  have h1 : max (1 : ℝ) 0 = 1 := max_eq_left (by norm_num)
  have h2 : min (1 : ℝ) 0 = 0 := min_eq_right (by norm_num)
  have h3 : max (0 : ℝ) phi = phi := max_eq_right hp0
  have h4 : min (0 : ℝ) phi = 0 := min_eq_left hp0
  show max (max (1 : ℝ) 0 - min (1 : ℝ) 0) (max (0 : ℝ) phi - min (0 : ℝ) phi) = phi
  rw [h1, h2, h3, h4, sub_zero, sub_zero, max_eq_right hp1]

theorem generate_two (s h : ℝ) :
    generate_fibonacci_points 2 s (1/2) h =
      some [⟨s / phi, 0, 0⟩, ⟨0, phi * (s / phi), h / 2⟩] := by
  rw [generate_eq 2 s (1/2) h (1, 0) [((0 : ℝ), phi)] (by norm_num) unscaledPoints_two
    (by rw [maxDimension_two]; exact phi_ne_zero), maxDimension_two]
  push_cast
  simp [scaleAndRamp]

theorem generate_two_phi (h : ℝ) :
    generate_fibonacci_points 2 phi (1/2) h =
      some [⟨1, 0, 0⟩, ⟨0, phi, h / 2⟩] := by
  rw [generate_two phi h, div_self phi_ne_zero, mul_one]

/-! ## Evaluation of the verification routine -/

theorem runCase_passes (n : ℤ) (s t h : ℝ) (hn : 2 ≤ n) (ht : 0 < t) (hs : 0 < s)
    (hh : 0 ≤ h)
    (hz : |((n.toNat - 1 : ℕ) : ℝ) * (h / (n : ℝ)) - h| ≤ s * 0.01) :
    runCase (n, s, t, h) = some true := by
  obtain ⟨us, hcons, hmdpos, hgen⟩ := generate_succeeds n s t h hn ht
  obtain ⟨p, ps, hp, hz0, hmin, hmax⟩ :=
    generate_z_stats n s t h _ (by omega) hh hgen
  have hbox := generate_boxMaxDim n s t h _ (by omega) hs hgen
  rw [hp] at hbox
  have hcond1 : ¬(|boxMaxDim (get_bounding_box (p :: ps)) - s| > s * 0.01) := by
    rw [hbox, sub_self, abs_zero]
    exact not_lt.mpr (mul_nonneg (le_of_lt hs) (by norm_num))
  show Option.bind (generate_fibonacci_points n s t h) (checkPoints s h) = some true
  rw [hgen, hp]
  show checkPoints s h (p :: ps) = some true
  unfold checkPoints
  rw [if_neg hcond1]
  by_cases h0 : 0 < h
  · rw [if_pos h0]
    show (if |(runMax p.z (ps.map Point3D.z) - runMin p.z (ps.map Point3D.z)) - h|
        > s * 0.01 then some false else some true) = some true
    have hcond2 : ¬(|(runMax p.z (ps.map Point3D.z) - runMin p.z (ps.map Point3D.z)) - h|
        > s * 0.01) := by
      rw [hmax, hmin, sub_zero]
      exact not_lt.mpr hz
    rw [if_neg hcond2]
  · rw [if_neg h0]

theorem testLoop_eq_true_iff (cs : List (ℤ × ℝ × ℝ × ℝ)) :
    testLoop cs = some true ↔ ∀ c ∈ cs, runCase c = some true := by
  induction cs with
  | nil => simp [testLoop]
  | cons c cs ih =>
    rcases hrc : runCase c with _ | b
    · simp [testLoop, hrc, List.forall_mem_cons]
    · cases b
      · simp [testLoop, hrc, List.forall_mem_cons]
      · simp [testLoop, hrc, List.forall_mem_cons, ih]

/-! ## Claim theorems -/

/-- C1: for every call of `generate_fibonacci_points` with `num_points > 1`
and `scale > 0` that returns a sequence, the axis-aligned planar bounding box
of the returned sequence satisfies `max(width, height_of_box) = scale`
exactly, in exact real arithmetic (every unscaled point is multiplied by
`scale / max_dimension`). -/
theorem generate_box_max_eq_scale (n : ℤ) (s t h : ℝ) (pts : List Point3D)
    (hn : 1 < n) (hs : 0 < s)
    (hgen : generate_fibonacci_points n s t h = some pts) :
    boxMaxDim (get_bounding_box pts) = s :=
  generate_boxMaxDim n s t h pts (by omega) hs hgen

/-- C1 witness: at `(2, phi, 1/2, 0)` the generator returns two points whose
bounding-box maximum dimension is exactly the requested scale `phi`. -/
theorem generate_box_max_eq_scale_witness :
    (1 : ℤ) < 2 ∧ (0 : ℝ) < phi ∧
    boxMaxDim (get_bounding_box [⟨1, 0, 0⟩, (⟨0, phi, 0/2⟩ : Point3D)]) = phi :=
  ⟨by norm_num, phi_pos,
    generate_box_max_eq_scale 2 phi (1/2) 0 _ (by norm_num) phi_pos (generate_two_phi 0)⟩

/-- C2 (amended): for `num_points > 1`, `height > 0` (and any call that
returns), `max(z) - min(z)` equals `height - height/num_points` exactly; it
is within 1% of `height` whenever `num_points ≥ 100`, but not in general
(see the counterexample at `num_points = 2`). -/
theorem generate_z_range_exact (n : ℤ) (s t h : ℝ) (pts : List Point3D)
    (hn : 1 < n) (hh : 0 < h)
    (hgen : generate_fibonacci_points n s t h = some pts) :
    ∃ p ps, pts = p :: ps ∧
      runMax p.z (ps.map Point3D.z) - runMin p.z (ps.map Point3D.z) =
        h - h / (n : ℝ) ∧
      (100 ≤ n →
        |(runMax p.z (ps.map Point3D.z) - runMin p.z (ps.map Point3D.z)) - h|
          ≤ 0.01 * h) := by
  obtain ⟨p, ps, hpts, hz0, hmin, hmax⟩ :=
    generate_z_stats n s t h pts (by omega) (le_of_lt hh) hgen
  have hnr : (0 : ℝ) < (n : ℝ) := intCast_pos n (by omega)
  have hval : runMax p.z (ps.map Point3D.z) - runMin p.z (ps.map Point3D.z) =
      h - h / (n : ℝ) := by
    rw [hmax, hmin, sub_zero, toNat_sub_one_cast n (by omega)]
    exact ramp_last_eq n h (by omega)
  refine ⟨p, ps, hpts, hval, fun h100 => ?_⟩
  rw [hval]
  have h100r : (100 : ℝ) ≤ (n : ℝ) := by exact_mod_cast h100
  have h1 : h - h / (n : ℝ) - h = -(h / (n : ℝ)) := by ring
  rw [h1, abs_neg, abs_of_nonneg (le_of_lt (div_pos hh hnr))]
  have hd : h / (n : ℝ) ≤ h / 100 := by
    rw [div_le_div_iff₀ hnr (by norm_num)]
    nlinarith
  linarith

/-- C2 counterexample: at `(2, phi, 1/2, 1)` the call returns, the z-range of
the returned sequence is `1/2`, and `1/2` is not within 1% of the requested
height `1` — refuting the claim that the z-range is within 1% of `height`
for every `num_points > 1`. -/
theorem generate_z_range_one_percent_cex :
    generate_fibonacci_points 2 phi (1/2) 1 = some [⟨1, 0, 0⟩, ⟨0, phi, 1/2⟩] ∧
    runMax (Point3D.z ⟨1, 0, 0⟩) ([(⟨0, phi, 1/2⟩ : Point3D)].map Point3D.z) -
      runMin (Point3D.z ⟨1, 0, 0⟩) ([(⟨0, phi, 1/2⟩ : Point3D)].map Point3D.z) =
      1/2 ∧
    ¬(|(1/2 - 1 : ℝ)| ≤ 0.01 * 1) := by
  refine ⟨generate_two_phi 1, ?_, ?_⟩
  · show max 0 (1/2 : ℝ) - min 0 (1/2 : ℝ) = 1/2
    rw [max_eq_right (by norm_num : (0 : ℝ) ≤ 1/2),
      min_eq_left (by norm_num : (0 : ℝ) ≤ 1/2)]
    norm_num
  · intro hcontra
    rw [abs_of_nonpos (by norm_num : (1/2 - 1 : ℝ) ≤ 0)] at hcontra
    norm_num at hcontra

/-- C2 witness (for the amended theorem): at `(2, phi, 1/2, 1)` the z-range
equals `1 - 1/2` exactly. -/
theorem generate_z_range_exact_witness :
    runMax (Point3D.z ⟨1, 0, 0⟩) ([(⟨0, phi, 1/2⟩ : Point3D)].map Point3D.z) -
      runMin (Point3D.z ⟨1, 0, 0⟩) ([(⟨0, phi, 1/2⟩ : Point3D)].map Point3D.z) =
      1 - 1 / ((2 : ℤ) : ℝ) := by
  obtain ⟨p, ps, hp, hval, _⟩ :=
    generate_z_range_exact 2 phi (1/2) 1 _ (by norm_num) (by norm_num)
      (generate_two_phi 1)
  injection hp with hp1 hp2
  subst hp1
  subst hp2
  exact hval

/-- C3 (amended): whenever `generate_fibonacci_points` with `num_points ≥ 0`
returns a sequence, that sequence has exactly `num_points` points; at
`num_points = 0` (and `1`) nothing is returned — the function raises a
ZeroDivisionError instead (see the counterexample). -/
theorem generate_length_eq_num_points (n : ℤ) (s t h : ℝ) (pts : List Point3D)
    (hn : 0 ≤ n)
    (hgen : generate_fibonacci_points n s t h = some pts) :
    pts.length = n.toNat := by
  rcases eq_or_lt_of_le hn with heq | hlt
  · exfalso
    rw [← heq, generate_zero] at hgen
    exact Option.noConfusion hgen
  · exact generate_length_of_some n s t h pts (by omega) hgen

/-- C3 counterexample: at `num_points = 0` the claim demands a returned
sequence of length 0, but the call raises (the `angle_increment` division by
`num_points` at Fib.py line 90 divides by zero), so no sequence is
returned. -/
theorem generate_length_at_zero_cex :
    generate_fibonacci_points 0 1 1 0 = none ∧
      ¬∃ pts : List Point3D, generate_fibonacci_points 0 1 1 0 = some pts := by
  refine ⟨generate_zero 1 1 0, ?_⟩
  rintro ⟨pts, hpts⟩
  rw [generate_zero] at hpts
  exact Option.noConfusion hpts

/-- C3 witness: at `(2, phi, 1/2, 0)` the returned sequence has length
`(2 : ℤ).toNat = 2`. -/
theorem generate_length_eq_num_points_witness :
    ([⟨1, 0, 0⟩, (⟨0, phi, 0/2⟩ : Point3D)] : List Point3D).length = (2 : ℤ).toNat :=
  generate_length_eq_num_points 2 phi (1/2) 0 _ (by norm_num) (generate_two_phi 0)

/-- C4 (amended): for every `num_points < 0` the generator returns the empty
sequence and raises no error; at `num_points = 0` it instead raises a
ZeroDivisionError in the `angle_increment` division (see the
counterexample). -/
theorem generate_negative_empty (n : ℤ) (s t h : ℝ) (hn : n < 0) :
    generate_fibonacci_points n s t h = some [] :=
  generate_neg n s t h hn

/-- C4 counterexample: at `num_points = 0` the claim demands an empty
sequence with no error, but the call raises (division by zero at Fib.py
line 90) and returns nothing. -/
theorem generate_zero_raises_cex :
    generate_fibonacci_points 0 2 1 0 = none ∧
      ¬(generate_fibonacci_points 0 2 1 0 = some []) := by
  refine ⟨generate_zero 2 1 0, ?_⟩
  intro hc
  rw [generate_zero] at hc
  exact Option.noConfusion hc

/-- C4 witness: at `num_points = -3` the generator returns the empty
sequence. -/
theorem generate_negative_empty_witness :
    generate_fibonacci_points (-3) 1 1 0 = some [] :=
  generate_negative_empty (-3) 1 1 0 (by norm_num)

/-- C5: for `num_points = 1` (positive scale and turns, non-negative height)
the single unscaled point `(1, 0)` makes `max_dimension = 0` and the scaling
division `scale / max_dimension` raises a ZeroDivisionError, modelled
`none`; the generator catches nothing, so the fault propagates to the
caller. -/
theorem generate_one_divzero (s t h : ℝ) (hs : 0 < s) (ht : 0 < t) (hh : 0 ≤ h) :
    generate_fibonacci_points 1 s t h = none :=
  generate_one s t h

/-- C5 witness: the concrete call with `num_points = 1` raises. -/
theorem generate_one_divzero_witness :
    (0 : ℝ) < 1 ∧ (0 : ℝ) ≤ 0 ∧ generate_fibonacci_points 1 1 1 0 = none :=
  ⟨by norm_num, le_refl 0,
    generate_one_divzero 1 1 0 (by norm_num) (by norm_num) (le_refl 0)⟩

/-- C6: for `num_points > 1` and `height ≥ 0`, the z coordinate of the point
at index i equals `i * (height / num_points)`, and the last emitted point's
z is `height - height/num_points` — one increment short of `height`,
preserved rather than corrected. -/
theorem generate_z_linear (n : ℤ) (s t h : ℝ) (pts : List Point3D)
    (hn : 1 < n) (hh : 0 ≤ h)
    (hgen : generate_fibonacci_points n s t h = some pts) :
    (∀ i : ℕ, i < pts.length →
      (pts.getD i ⟨0, 0, 0⟩).z = (i : ℝ) * (h / (n : ℝ))) ∧
    (pts.getD (pts.length - 1) ⟨0, 0, 0⟩).z = h - h / (n : ℝ) := by
  have hmain := generate_getD_z n s t h pts (by omega) hgen
  have hlen := generate_length_of_some n s t h pts (by omega) hgen
  refine ⟨hmain, ?_⟩
  have hlt : pts.length - 1 < pts.length := by omega
  rw [hmain _ hlt, hlen, toNat_sub_one_cast n (by omega)]
  exact ramp_last_eq n h (by omega)

/-- C6 witness: at `(2, phi, 1/2, 1)` the point at index 1 has
z = 1 * (1/2) and the last point's z is `1 - 1/2`. -/
theorem generate_z_linear_witness :
    (([⟨1, 0, 0⟩, ⟨0, phi, 1/2⟩] : List Point3D).getD 1 ⟨0, 0, 0⟩).z =
      ((1 : ℕ) : ℝ) * (1 / ((2 : ℤ) : ℝ)) ∧
    (([⟨1, 0, 0⟩, ⟨0, phi, 1/2⟩] : List Point3D).getD
        (([⟨1, 0, 0⟩, ⟨0, phi, 1/2⟩] : List Point3D).length - 1) ⟨0, 0, 0⟩).z =
      1 - 1 / ((2 : ℤ) : ℝ) := by
  have h := generate_z_linear 2 phi (1/2) 1 _ (by norm_num) (by norm_num)
    (generate_two_phi 1)
  exact ⟨h.1 1 (by norm_num), h.2⟩

/-- C7: for `num_points > 1` and `height ≥ 0`, consecutive points of the
returned sequence have non-decreasing z coordinates. -/
theorem generate_z_monotone (n : ℤ) (s t h : ℝ) (pts : List Point3D)
    (hn : 1 < n) (hh : 0 ≤ h)
    (hgen : generate_fibonacci_points n s t h = some pts) :
    ∀ i : ℕ, i + 1 < pts.length →
      (pts.getD i ⟨0, 0, 0⟩).z ≤ (pts.getD (i + 1) ⟨0, 0, 0⟩).z := by
  have hmain := generate_getD_z n s t h pts (by omega) hgen
  intro i hi
  rw [hmain i (by omega), hmain (i + 1) hi]
  have hdz : 0 ≤ h / (n : ℝ) := div_nonneg hh (le_of_lt (intCast_pos n (by omega)))
  have hle : (i : ℝ) ≤ ((i + 1 : ℕ) : ℝ) := by push_cast; linarith
  exact mul_le_mul_of_nonneg_right hle hdz

/-- C7 witness: at `(2, phi, 1/2, 1)` the z of point 0 is at most the z of
point 1. -/
theorem generate_z_monotone_witness :
    (([⟨1, 0, 0⟩, ⟨0, phi, 1/2⟩] : List Point3D).getD 0 ⟨0, 0, 0⟩).z ≤
    (([⟨1, 0, 0⟩, ⟨0, phi, 1/2⟩] : List Point3D).getD (0 + 1) ⟨0, 0, 0⟩).z :=
  generate_z_monotone 2 phi (1/2) 1 _ (by norm_num) (by norm_num)
    (generate_two_phi 1) 0 (by norm_num)

/-- C9: the generator is a pure function of its four parameters; two calls
with identical arguments return the same sequence. -/
theorem generate_deterministic (n : ℤ) (s t h : ℝ) (pts1 pts2 : List Point3D)
    (h1 : generate_fibonacci_points n s t h = some pts1)
    (h2 : generate_fibonacci_points n s t h = some pts2) : pts1 = pts2 := by
  rw [h1] at h2
  exact Option.some.inj h2

/-- C9 witness: two runs at `(2, phi, 1/2, 1)` yield the same list. -/
theorem generate_deterministic_witness :
    ([⟨1, 0, 0⟩, ⟨0, phi, 1/2⟩] : List Point3D) = [⟨1, 0, 0⟩, ⟨0, phi, 1/2⟩] :=
  generate_deterministic 2 phi (1/2) 1 _ _ (generate_two_phi 1) (generate_two_phi 1)

/-- C10: for `num_points ≥ 2` and `turns > 0` the unscaled extent
`max_dimension` is strictly positive (the point at index 1 has radius
`phi ** (4*turns/num_points) > 1`, hence differs from the index-0 point
`(1, 0)`), so `scale / max_dimension` never divides by zero and the
generator returns normally for every real scale and height. -/
theorem generate_no_divzero (n : ℤ) (s t h : ℝ) (hn : 2 ≤ n) (ht : 0 < t) :
    (∃ us, unscaledPoints n t = (1, 0) :: us ∧ 0 < maxDimension (1, 0) us) ∧
    ∃ pts, generate_fibonacci_points n s t h = some pts := by
  obtain ⟨us, hcons, hmd, hgen⟩ := generate_succeeds n s t h hn ht
  exact ⟨⟨us, hcons, hmd⟩, ⟨_, hgen⟩⟩

/-- C10 witness: at `(2, 1, 1/2, 0)` the extent is positive and the call
returns. -/
theorem generate_no_divzero_witness :
    (∃ us, unscaledPoints 2 (1/2) = (1, 0) :: us ∧ 0 < maxDimension (1, 0) us) ∧
    ∃ pts, generate_fibonacci_points 2 1 (1/2) 0 = some pts :=
  generate_no_divzero 2 1 (1/2) 0 (le_refl 2) (by norm_num)

/-- C8: `test_spiral_dimensions` returns True precisely when every tuple of
its fixed five-case table passes both tolerance checks (bounding-box max
dimension within `scale * 0.01` of `scale`, and, when `height > 0`, z-range
within `scale * 0.01` of `height`); in fact every case passes and it returns
True without raising. -/
theorem test_spiral_dimensions_passes :
    (test_spiral_dimensions = some true ↔ ∀ c ∈ test_cases, runCase c = some true) ∧
    test_spiral_dimensions = some true := by
  have hall : ∀ c ∈ test_cases, runCase c = some true := by
    have h1 : runCase ((100 : ℤ), (100 : ℝ), (1 : ℝ), (0 : ℝ)) = some true :=
      runCase_passes 100 100 1 0 (by norm_num) (by norm_num) (by norm_num)
        (by norm_num) (by norm_num)
    have h2 : runCase ((200 : ℤ), (50 : ℝ), (2 : ℝ), (0 : ℝ)) = some true :=
      runCase_passes 200 50 2 0 (by norm_num) (by norm_num) (by norm_num)
        (by norm_num) (by norm_num)
    have h3 : runCase ((50 : ℤ), (200 : ℝ), (1/2 : ℝ), (0 : ℝ)) = some true :=
      runCase_passes 50 200 (1/2) 0 (by norm_num) (by norm_num) (by norm_num)
        (by norm_num) (by norm_num)
    have h4 : runCase ((100 : ℤ), (100 : ℝ), (1 : ℝ), (50 : ℝ)) = some true :=
      runCase_passes 100 100 1 50 (by norm_num) (by norm_num) (by norm_num)
        (by norm_num) (by norm_num [abs_le, show (100 : ℤ).toNat = 100 from rfl])
    have h5 : runCase ((50 : ℤ), (100 : ℝ), (1 : ℝ), (25 : ℝ)) = some true :=
      runCase_passes 50 100 1 25 (by norm_num) (by norm_num) (by norm_num)
        (by norm_num) (by norm_num [abs_le, show (50 : ℤ).toNat = 50 from rfl])
    intro c hc
    simp only [test_cases, List.mem_cons, List.not_mem_nil, or_false] at hc
    rcases hc with rfl | rfl | rfl | rfl | rfl
    · exact h1
    · exact h2
    · exact h3
    · exact h4
    · exact h5
  exact ⟨testLoop_eq_true_iff test_cases, (testLoop_eq_true_iff test_cases).mpr hall⟩
